import Mathlib

/-!
Shallow embedding of the Fluent documentation fetcher
(`src/fluent_doc/core.py`): data model, string helpers mirroring the
Python primitives used by the code, the static key/guide tables, and the
retrieval operations of `FluentDocFetcher`.  Browser effects are modelled
by an explicit environment (`Env`) describing the outcome of each external
call, and the fetcher's mutable fields by `FetcherState`.  Every operation
also returns the number of page navigations it performed, so that
"no network access" claims can be stated.
-/

namespace FluentDoc

/-- `DocContent` dataclass: documentation content container. -/
structure DocContent where
  title : String
  url : String
  content : String
  breadcrumb : List String
deriving DecidableEq

/-- `TocEntry` dataclass: table of contents entry. -/
structure TocEntry where
  title : String
  url : String
  section_number : String := ""
deriving DecidableEq

/-- A `{text, href}` record as stored in a cached TOC JSON file or
collected by the link-extraction script. -/
structure LinkRec where
  text : String
  href : String
deriving DecidableEq

/-- Python `str.lower` (ASCII model). -/
def pyLower (s : String) : String := ⟨s.data.map Char.toLower⟩

/-- Python `needle in haystack` on lists of characters:
contiguous-substring test. -/
def pyContains (pat : List Char) : List Char → Bool
  | [] => pat.isPrefixOf []
  | c :: t => pat.isPrefixOf (c :: t) || pyContains pat t

/-- Python `needle in haystack` on strings. -/
def pyIn (needle haystack : String) : Bool :=
  pyContains needle.data haystack.data

/-- Python `str.strip()`: remove leading and trailing whitespace. -/
def pyStrip (s : String) : String :=
  ⟨((s.data.dropWhile Char.isWhitespace).reverse.dropWhile Char.isWhitespace).reverse⟩

/-- The suffix of `l` strictly after the first occurrence of `pat`
(models `body[body.find(pat) + len(pat):]` when `pat` occurs in `body`). -/
def dropThroughFirst (pat : List Char) : List Char → List Char
  | [] => []
  | c :: t =>
    if pat.isPrefixOf (c :: t) then (c :: t).drop pat.length
    else dropThroughFirst pat t

/-- The `"PRINT PAGE"` marker preceding the real content of a page. -/
def printMarker : List Char := "PRINT PAGE".data

/-- The content-trimming step shared by `fetch_by_key` and `fetch_by_url`:
if the body contains `"PRINT PAGE"`, keep only the text after its first
occurrence, stripped; otherwise keep the body unchanged. -/
def trimContent (body : String) : String :=
  if pyIn ⟨printMarker⟩ body then pyStrip ⟨dropThroughFirst printMarker body.data⟩
  else body

/-- Python `str.replace(pat, rep)` (all occurrences, left to right),
fuelled recursion; `pyReplace` instantiates the fuel with the input
length, which suffices for the non-empty patterns the code uses. -/
def pyReplaceF (pat rep : List Char) : Nat → List Char → List Char
  | 0, l => l
  | _ + 1, [] => []
  | fuel + 1, c :: t =>
    if pat.isPrefixOf (c :: t) then rep ++ pyReplaceF pat rep fuel ((c :: t).drop pat.length)
    else c :: pyReplaceF pat rep fuel t

/-- Python `str.replace(pat, rep)`. -/
def pyReplace (pat rep l : List Char) : List Char := pyReplaceF pat rep l.length l

/-- Python `str.title()` (ASCII model): uppercase every letter that does
not follow a letter, lowercase the rest. -/
def pyTitleAux : Bool → List Char → List Char
  | _, [] => []
  | prev, c :: t =>
    if c.isAlpha then (if prev then c.toLower else c.toUpper) :: pyTitleAux true t
    else c :: pyTitleAux false t

/-- Python `str.title()`. -/
def pyTitle (l : List Char) : List Char := pyTitleAux false l

/-- Python `path.split("/")[-1]`: the segment after the last slash. -/
def lastSegment (l : List Char) : List Char :=
  (l.reverse.takeWhile (fun c => c ≠ '/')).reverse

/-- Heuristic title of `fetch_by_url`:
`doc_path.split("/")[-1].replace(".html", "").replace("_", " ").title()`. -/
def pathTitle (doc_path : String) : String :=
  ⟨pyTitle (pyReplace "_".data " ".data (pyReplace ".html".data [] (lastSegment doc_path.data)))⟩

/-- Python `str.split()` (no separator): whitespace-delimited words,
empty words discarded.  The accumulator holds the current word reversed. -/
def pyWordsAux (cur : List Char) : List Char → List (List Char)
  | [] => if cur.isEmpty then [] else [cur.reverse]
  | c :: t =>
    if c.isWhitespace then
      if cur.isEmpty then pyWordsAux [] t else cur.reverse :: pyWordsAux [] t
    else pyWordsAux (c :: cur) t

/-- Python `str.split()` on a list of characters. -/
def pyWords (l : List Char) : List (List Char) := pyWordsAux [] l

/-- First-match lookup in an association list, modelling Python `dict`
membership test plus subscript on the module-level tables. -/
def lookupStr {α : Type} : List (String × α) → String → Option α
  | [], _ => none
  | (k, v) :: t, key => if key = k then some v else lookupStr t key

/-- `THEORY_URLS`: URL mappings for common theory sections. -/
def THEORY_URLS : List (String × String) := [
  ("turbulence_overview", "corp/v252/en/flu_th/flu_th_turb.html"),
  ("k_epsilon", "corp/v252/en/flu_th/flu_th_sec_turb_keps.html"),
  ("k_epsilon_standard", "corp/v252/en/flu_th/flu_th_sec_turb_ke_std.html"),
  ("k_omega", "corp/v252/en/flu_th/flu_th_sec_turb_komega.html"),
  ("k_omega_standard", "corp/v252/en/flu_th/flu_th_sec_turb_kw_std.html"),
  ("k_omega_sst", "corp/v252/en/flu_th/flu_th_sec_turb_kw_sst.html"),
  ("heat_transfer", "corp/v252/en/flu_th/flu_th_sec_hxfer_theory.html"),
  ("natural_convection", "corp/v252/en/flu_th/flu_th_sec_hxfer_buoy.html"),
  ("radiation_overview", "corp/v252/en/flu_th/flu_th_radiation.html"),
  ("radiation_do", "corp/v252/en/flu_th/flu_th_sec_mod_disco.html"),
  ("radiation_s2s", "corp/v252/en/flu_th/flu_th_sec_rad_surface2surface.html"),
  ("multiphase", "corp/v252/en/flu_th/flu_th_multiphase.html"),
  ("battery", "corp/v252/en/flu_th/flu_th_battery.html"),
  ("solver_theory", "corp/v252/en/flu_th/flu_th_solver.html"),
  ("user_turbulence", "corp/v252/en/flu_ug/flu_ug_turb.html"),
  ("user_boundary", "corp/v252/en/flu_ug/flu_ug_bcs.html"),
  ("user_heat_transfer", "corp/v252/en/flu_ug/flu_ug_sec_hxfer.html"),
  ("user_radiation", "corp/v252/en/flu_ug/flu_ug_sec_radiation.html"),
  ("tui_define", "corp/v252/en/flu_tcl/flu_tcl_define.html"),
  ("tui_solve", "corp/v252/en/flu_tcl/flu_tcl_solve.html")]

/-- `SECTION_NAMES`: friendly names for display. -/
def SECTION_NAMES : List (String × String) := [
  ("turbulence_overview", "Turbulence (Chapter 4)"),
  ("k_epsilon", "k-ε Models Overview"),
  ("k_epsilon_standard", "Standard k-ε Model"),
  ("k_omega", "k-ω Models Overview"),
  ("k_omega_standard", "Standard k-ω Model"),
  ("k_omega_sst", "SST k-ω Model"),
  ("heat_transfer", "Heat Transfer Theory (5.2.1)"),
  ("natural_convection", "Natural Convection & Buoyancy (5.2.2)"),
  ("radiation_overview", "Radiation Modeling (Chapter 5.3)"),
  ("radiation_do", "Discrete Ordinates (DO) Model"),
  ("radiation_s2s", "Surface-to-Surface (S2S) Model"),
  ("multiphase", "Multiphase Flows (Chapter 14)"),
  ("battery", "Battery Model (Chapter 19)"),
  ("solver_theory", "Solver Theory (Chapter 23)"),
  ("user_turbulence", "User's Guide: Turbulence"),
  ("user_boundary", "User's Guide: Boundary Conditions"),
  ("user_heat_transfer", "User's Guide: Heat Transfer"),
  ("user_radiation", "User's Guide: Radiation"),
  ("tui_define", "TUI: /define commands"),
  ("tui_solve", "TUI: /solve commands")]

/-- `GUIDE_TOCS`: guide TOC URLs (version-independent pattern). -/
def GUIDE_TOCS : List (String × String) := [
  ("theory", "flu_th/flu_th.html"),
  ("user", "flu_ug/flu_ug.html"),
  ("tui", "flu_tcl/flu_tcl.html")]

/-- `BASE_URL` of the documentation site. -/
def BASE_URL : String := "https://ansyshelp.ansys.com"

/-- The fixed secured-area URL prefix prepended to every content path. -/
def securedBase : String := BASE_URL ++ "/public//Views/Secured/"

/-- Continuation of `re.match` for the pattern piece `\d*(\.\d+)*\.?`,
entered right after the first digit of `\d+` was consumed: consume further
digits, dot-digit groups (greedily), and one optional trailing dot.
Returns (characters consumed, rest).  As argued from the pattern, no
backtracking into this piece can ever help, since every shorter variant
ends right before a digit or a dot, which cannot start `\s+`. -/
def afterDigit : List Char → List Char × List Char
  | [] => ([], [])
  | c :: t =>
    if c.isDigit then
      let r := afterDigit t
      (c :: r.1, r.2)
    else if c = '.' then
      match t with
      | [] => (['.'], [])
      | d :: t' =>
        if d.isDigit then
          let r := afterDigit t'
          (c :: d :: r.1, r.2)
        else (['.'], t)
    else ([], c :: t)

/-- The group captured by `(.+)$` when matched at the current position
(`.` excludes the newline; `$` matches at the end or before a final
newline), or `none` when it cannot match. -/
def tailCapture (r : List Char) : Option (List Char) :=
  let t := r.takeWhile (fun c => c ≠ '\n')
  let rest := r.drop t.length
  if t.isEmpty then none
  else if rest.isEmpty || rest = ['\n'] then some t else none

/-- Backtracking of a greedy `\s+` followed by `(.+)$`: `wsRev` holds the
consumed whitespace reversed; give characters back one at a time (keeping
`\s+` non-empty) until `(.+)$` matches. -/
def wsBack : List Char → List Char → Option (List Char)
  | [], _ => none
  | w :: wsRev, rest =>
    match tailCapture rest with
    | some g2 => some g2
    | none => wsBack wsRev (w :: rest)

/-- Match `\s+(.+)$` at the current position and return the second
capture group. -/
def wsRest (r : List Char) : Option (List Char) :=
  let ws := r.takeWhile Char.isWhitespace
  if ws.isEmpty then none
  else wsBack ws.reverse (r.drop ws.length)

/-- `re.match` of `section_pattern = r'^(\d+(?:\.\d+)*\.?)\s+(.+)$'`:
returns the two capture groups on a match. -/
def sectionMatch : List Char → Option (List Char × List Char)
  | [] => none
  | c :: t =>
    if c.isDigit then
      let r := afterDigit t
      match wsRest r.2 with
      | some g2 => some (c :: r.1, g2)
      | none => none
    else none

/-- Python `str.rstrip('.')`: remove trailing dots. -/
def rstripDots (l : List Char) : List Char :=
  (l.reverse.dropWhile (fun c => c = '.')).reverse

/-- The numeric-prefix split applied to an anchor's display text when
building a TOC index: on a `section_pattern` match, the section number is
the first group with trailing dots stripped and the title is the second
group; otherwise the section number is empty and the title is the whole
text. -/
def splitSectionTitle (text : String) : String × String :=
  match sectionMatch text.data with
  | some (g1, g2) => (⟨rstripDots g1⟩, ⟨g2⟩)
  | none => ("", text)

/-- Convert a `{text, href}` record into a `TocEntry` via the
numeric-prefix split (shared by `_load_cached_toc` and
`build_toc_index`). -/
def mkTocEntry (link : LinkRec) : TocEntry :=
  let p := splitSectionTitle link.text
  { title := p.2, url := link.href, section_number := p.1 }

/-- Per-entry word-match score of the Section Matcher: for each distinct
query word occurring as a substring of the lower-cased title add 10, plus
5 more when the title starts with that word. -/
def scoreBase (qwords : List (List Char)) (tl : List Char) : ℚ :=
  (qwords.map fun w =>
    if pyContains w tl then
      (10 : ℚ) + (if w.isPrefixOf tl then 5 else 0)
    else 0).sum

/-- The length bonus added to an entry scoring above zero:
`5 / (len(title) / 10)`. -/
def lengthBonus (title : String) : ℚ := 5 / ((title.length : ℚ) / 10)

/-- One pass over the entries, mirroring the loop of `find_section`:
either an exact lower-cased title match is found (`Sum.inl`, returned
immediately by the code) or the loop completes with the list of
positively-scored `(score, entry)` pairs in TOC order (`Sum.inr`). -/
def scanScore (ql : List Char) (qwords : List (List Char)) :
    List TocEntry → TocEntry ⊕ List (ℚ × TocEntry)
  | [] => Sum.inr []
  | e :: rest =>
    let tl := e.title.data.map Char.toLower
    if ql = tl then Sum.inl e
    else
      let base := scoreBase qwords tl
      match scanScore ql qwords rest with
      | Sum.inl e' => Sum.inl e'
      | Sum.inr scored =>
        Sum.inr (if 0 < base then (base + lengthBonus e.title, e) :: scored else scored)

/-- Stable insertion into a list sorted by descending score: `x` goes
before the first element whose score is at most `x`'s, so earlier
elements win ties (models the stability of Python `list.sort`). -/
def insertDesc (x : ℚ × TocEntry) : List (ℚ × TocEntry) → List (ℚ × TocEntry)
  | [] => [x]
  | y :: t => if y.1 ≤ x.1 then x :: y :: t else y :: insertDesc x t

/-- Stable sort by descending score, modelling
`scored.sort(key=lambda x: -x[0])`. -/
def sortScored : List (ℚ × TocEntry) → List (ℚ × TocEntry)
  | [] => []
  | x :: t => insertDesc x (sortScored t)

/-- The pure Section Matcher applied to a given index (the body of
`find_section` after the TOC index has been built). -/
def find_section_in (query : String) (entries : List TocEntry) : Option TocEntry :=
  let ql := query.data.map Char.toLower
  let qwords := (pyWords ql).dedup
  match scanScore ql qwords entries with
  | Sum.inl e => some e
  | Sum.inr scored =>
    if scored.isEmpty then none
    else ((sortScored scored).head?).map (fun x => x.2)

/-- The score the claims speak about: 0 for an entry with no word match,
otherwise the word-match score plus the length bonus. -/
def totalScore (query : String) (e : TocEntry) : ℚ :=
  let ql := query.data.map Char.toLower
  let qwords := (pyWords ql).dedup
  let base := scoreBase qwords (e.title.data.map Char.toLower)
  if 0 < base then base + lengthBonus e.title else 0

/-- Spelling of the tail of a dotted-number label: a dot before each
further digit group. -/
def dotTail (gs : List (List Char)) : List Char :=
  (gs.map (fun x => '.' :: x)).flatten

/-- Spelling of a dotted-number label `g0.g1.….gk` (no trailing dot)
from its digit groups. -/
def numCore : List (List Char) → List Char
  | [] => []
  | g :: gs => g ++ dotTail gs

/-- The positively-scored `(score, entry)` pairs of an index in TOC
order, expressed through `totalScore`; proved below to be what the
matcher loop accumulates when no exact match occurs. -/
def scoredOf (query : String) (entries : List TocEntry) : List (ℚ × TocEntry) :=
  entries.filterMap fun e =>
    if 0 < totalScore query e then some (totalScore query e, e) else none

/-- Result of a successful frame navigation plus text extraction: the
extracted body text and the frame's resolved URL. -/
structure NavResult where
  body : String
  url : String
deriving DecidableEq

/-- The injected browsing-context capability: outcome of the landing
navigation, presence of the content frame, outcome of each frame
navigation (`none` models a navigation error or timeout), the parsed
contents of each durable cache file (by guide and version; `none` models
a missing or unreadable file), and the outcome of the link-collection
script on a TOC page. -/
structure Env where
  landingOk : Bool
  frameAvailable : Bool
  nav : String → Option NavResult
  cacheFile : String → String → Option (List LinkRec)
  links : String → Option (List LinkRec)

/-- The fetcher's mutable state: the session flag and the in-process TOC
cache. -/
structure FetcherState where
  session_established : Bool
  toc_cache : List (String × List TocEntry)
deriving DecidableEq

/-- A freshly constructed fetcher. -/
def initState : FetcherState := ⟨false, []⟩

/-- `_establish_session`: a no-op once established; otherwise navigate to
the landing page (one navigation), returning `false` on failure.  The
third component counts navigations performed. -/
def establish_session (env : Env) (s : FetcherState) : Bool × FetcherState × Nat :=
  if s.session_established then (true, s, 0)
  else if env.landingOk then (true, { s with session_established := true }, 1)
  else (false, s, 1)

/-- `fetch_by_url`: fetch documentation by direct URL path. -/
def fetch_by_url (env : Env) (s : FetcherState) (doc_path : String) :
    Option DocContent × FetcherState × Nat :=
  match establish_session env s with
  | (ok, s1, n1) =>
    if !ok then (none, s1, n1)
    else if !env.frameAvailable then (none, s1, n1)
    else
      let target_url := securedBase ++ doc_path
      match env.nav target_url with
      | none => (none, s1, n1 + 1)
      | some res =>
        if pyIn "page cannot be found" (pyLower res.body) || pyIn "PageNotfound" res.url then
          (none, s1, n1 + 1)
        else
          let title := pathTitle doc_path
          (some ⟨title, res.url, trimContent res.body, [title]⟩, s1, n1 + 1)

/-- `fetch_by_key`: fetch a documentation section by its key. -/
def fetch_by_key (env : Env) (s : FetcherState) (section_key : String) :
    Option DocContent × FetcherState × Nat :=
  match lookupStr THEORY_URLS section_key with
  | none => (none, s, 0)
  | some target_path =>
    match establish_session env s with
    | (ok, s1, n1) =>
      if !ok then (none, s1, n1)
      else if !env.frameAvailable then (none, s1, n1)
      else
        let target_url := securedBase ++ target_path
        match env.nav target_url with
        | none => (none, s1, n1 + 1)
        | some res =>
          if pyIn "page cannot be found" (pyLower res.body) || pyIn "PageNotfound" res.url then
            (none, s1, n1 + 1)
          else
            let title := (lookupStr SECTION_NAMES section_key).getD section_key
            (some ⟨title, res.url, trimContent res.body, [title]⟩, s1, n1 + 1)

/-- `_load_cached_toc`: load and parse the durable TOC cache for a guide,
or `[]` when the file is missing or unreadable. -/
def load_cached_toc (env : Env) (guide version : String) : List TocEntry :=
  match env.cacheFile guide version with
  | none => []
  | some links => links.map mkTocEntry

/-- `build_toc_index`: in-process cache, then durable cache, then live
build; unknown guides yield `[]` immediately. -/
def build_toc_index (env : Env) (s : FetcherState) (version guide : String) :
    List TocEntry × FetcherState × Nat :=
  match lookupStr s.toc_cache guide with
  | some es => (es, s, 0)
  | none =>
    match lookupStr GUIDE_TOCS guide with
    | none => ([], s, 0)
    | some gpath =>
      let entries := load_cached_toc env guide version
      if !entries.isEmpty then
        (entries, { s with toc_cache := (guide, entries) :: s.toc_cache }, 0)
      else
        match establish_session env s with
        | (ok, s1, n1) =>
          if !ok then ([], s1, n1)
          else if !env.frameAvailable then ([], s1, n1)
          else
            let toc_url := securedBase ++ "corp/" ++ version ++ "/en/" ++ gpath
            match env.nav toc_url with
            | none => ([], s1, n1 + 1)
            | some _ =>
              match env.links toc_url with
              | none => ([], s1, n1 + 1)
              | some links =>
                let entries := links.map mkTocEntry
                (entries, { s1 with toc_cache := (guide, entries) :: s1.toc_cache }, n1 + 1)

/-- `find_section`: build (or reuse) the guide's TOC index, then run the
Section Matcher on it. -/
def find_section (env : Env) (s : FetcherState) (version query guide : String) :
    Option TocEntry × FetcherState × Nat :=
  match build_toc_index env s version guide with
  | (entries, s1, n1) =>
    if entries.isEmpty then (none, s1, n1)
    else (find_section_in query entries, s1, n1)

/-- Recover a navigable path from a TOC entry's absolute URL by stripping
the secured-area prefix when present. -/
def stripSecured (url : String) : String :=
  if securedBase.data.isPrefixOf url.data then ⟨url.data.drop securedBase.data.length⟩
  else url

/-- `fetch_by_search`: resolve a free-text query via the Section Matcher,
then delegate to `fetch_by_url` on the recovered path. -/
def fetch_by_search (env : Env) (s : FetcherState) (version query guide : String) :
    Option DocContent × FetcherState × Nat :=
  match find_section env s version query guide with
  | (none, s1, n1) => (none, s1, n1)
  | (some entry, s1, n1) =>
    let doc_path := stripSecured entry.url
    match fetch_by_url env s1 doc_path with
    | (r, s2, n2) => (r, s2, n1 + n2)

/-- URL of the SST k-ω section as listed in a cached theory TOC. -/
def entryUrlC1 : String := securedBase ++ "corp/v252/en/flu_th/flu_th_sec_turb_kw_sst.html"

/-- Cached-TOC record for the SST k-ω section. -/
def linkC1 : LinkRec := ⟨"4.4.3. SST k-ω Model", entryUrlC1⟩

/-- Environment with a populated durable theory-TOC cache and a
successful navigation to the SST k-ω page. -/
def envC1 : Env where
  landingOk := true
  frameAvailable := true
  nav := fun _ => some ⟨"Some documentation body text", entryUrlC1⟩
  cacheFile := fun _ _ => some [linkC1]
  links := fun _ => none

/-- The `DocContent` produced by the free-text pipeline in `envC1`. -/
def dC1 : DocContent :=
  ⟨"Flu Th Sec Turb Kw Sst", entryUrlC1, "Some documentation body text",
    ["Flu Th Sec Turb Kw Sst"]⟩

/-- A body signalling a missing page. -/
def resBad : NavResult := ⟨"The Page Cannot Be Found.", "https://x/y"⟩

/-- Environment whose navigations land on a not-found page. -/
def envBad : Env where
  landingOk := true
  frameAvailable := true
  nav := fun _ => some resBad
  cacheFile := fun _ _ => none
  links := fun _ => none

/-- A body with TOC chrome before the print marker. -/
def resW1 : NavResult := ⟨"XPRINT PAGE  hello ", "urlW"⟩

/-- Environment whose navigations succeed with `resW1`. -/
def envW1 : Env where
  landingOk := true
  frameAvailable := true
  nav := fun _ => some resW1
  cacheFile := fun _ _ => none
  links := fun _ => none

/-- The `DocContent` produced by `fetch_by_url` on path `"a.html"` in
`envW1`. -/
def dW : DocContent := ⟨"A", "urlW", "hello", ["A"]⟩

/-- The `DocContent` produced by `fetch_by_key` on key `"k_omega_sst"`
in `envW1`. -/
def dW9 : DocContent := ⟨"SST k-ω Model", "urlW", "hello", ["SST k-ω Model"]⟩

/-- The index of the spec's scoring-monotonicity example. -/
def esW : List TocEntry :=
  [⟨"Natural Convection & Buoyancy", "u1", ""⟩,
   ⟨"Convection Overview", "u2", ""⟩,
   ⟨"Radiation", "u3", ""⟩]

/-! ### Helper lemmas -/

/-- A successful association-list lookup yields a member of the list. -/
theorem lookupStr_mem {α : Type} {l : List (String × α)} {k : String} {v : α}
    (h : lookupStr l k = some v) : (k, v) ∈ l := by
  induction l with
  | nil => simp [lookupStr] at h
  | cons kv t ih =>
    obtain ⟨k', v'⟩ := kv
    simp only [lookupStr] at h
    by_cases hk : k = k'
    · simp [hk] at h
      simp [hk, h]
    · simp [hk] at h
      exact List.mem_cons_of_mem _ (ih h)

/-- Every key of the URL table has a display name in the name table. -/
theorem theory_names_exist :
    ∀ kv ∈ THEORY_URLS, (lookupStr SECTION_NAMES kv.1).isSome = true := by decide

/-- `pyContains` holds whenever the pattern is a prefix. -/
theorem pyContains_of_isPrefixOf (pat l : List Char) (h : pat.isPrefixOf l = true) :
    pyContains pat l = true := by
  cases l with
  | nil => simpa [pyContains] using h
  | cons c t => simp [pyContains, h]

/-- `pyContains` holds on any decomposition around the pattern. -/
theorem pyContains_decomp (pat pre post : List Char) :
    pyContains pat (pre ++ (pat ++ post)) = true := by
  induction pre with
  | nil =>
    refine pyContains_of_isPrefixOf _ _ ?_
    simp only [List.nil_append, List.isPrefixOf_iff_prefix]
    exact List.prefix_append pat post
  | cons c pre' ih => simp [pyContains, ih]

/-- On a first-occurrence decomposition, `dropThroughFirst` returns
exactly the text after the pattern. -/
theorem dropThroughFirst_decomp (pat pre post : List Char)
    (hfirst : ∀ i, i < pre.length →
      pat.isPrefixOf ((pre ++ (pat ++ post)).drop i) = false) :
    dropThroughFirst pat (pre ++ (pat ++ post)) = post := by
  induction pre with
  | nil =>
    simp only [List.nil_append]
    cases pat with
    | nil =>
      cases post with
      | nil => rfl
      | cons c t => simp [dropThroughFirst]
    | cons p pt =>
      simp only [List.cons_append, dropThroughFirst, List.append_eq]
      have hpre : (p :: pt).isPrefixOf (p :: (pt ++ post)) = true := by
        simp only [List.isPrefixOf_iff_prefix]
        exact List.prefix_append (p :: pt) post
      rw [hpre]
      simp only [if_true]
      rw [show p :: (pt ++ post) = (p :: pt) ++ post from rfl, List.drop_left]
  | cons c pre' ih =>
    have h0 := hfirst 0 (by simp)
    simp only [List.cons_append, List.drop_zero] at h0
    simp only [List.cons_append, dropThroughFirst, List.append_eq]
    rw [h0]
    simp only [Bool.false_eq_true, if_false]
    refine ih fun i hi => ?_
    have := hfirst (i + 1) (by simpa using Nat.succ_lt_succ hi)
    simpa [List.cons_append] using this

/-- At an exact lower-cased title match preceded only by non-matching
titles, the matcher loop short-circuits with that entry. -/
theorem scanScore_of_exact (ql : List Char) (qwords : List (List Char))
    (s1 : List TocEntry) (e : TocEntry) (s2 : List TocEntry)
    (hfirst : ∀ y ∈ s1, y.title.data.map Char.toLower ≠ ql)
    (he : e.title.data.map Char.toLower = ql) :
    scanScore ql qwords (s1 ++ e :: s2) = Sum.inl e := by
  induction s1 with
  | nil => simp [scanScore, he]
  | cons y t ih =>
    have hy : ¬ (ql = y.title.data.map Char.toLower) :=
      fun h => hfirst y (List.mem_cons_self y t) h.symm
    simp only [List.cons_append, scanScore, List.append_eq]
    rw [if_neg hy, ih fun z hz => hfirst z (List.mem_cons_of_mem _ hz)]

/-- The word-match score is a sum of non-negative contributions. -/
theorem scoreBase_nonneg (qwords : List (List Char)) (tl : List Char) :
    0 ≤ scoreBase qwords tl := by
  refine List.sum_nonneg ?_
  intro x hx
  obtain ⟨w, _, rfl⟩ := List.mem_map.mp hx
  by_cases h : pyContains w tl = true
  · rw [if_pos h]
    by_cases h2 : w.isPrefixOf tl = true
    · rw [if_pos h2]
      norm_num
    · rw [if_neg h2]
      norm_num
  · simp [h]

/-- The length bonus is never negative. -/
theorem lengthBonus_nonneg (t : String) : 0 ≤ lengthBonus t := by
  unfold lengthBonus
  positivity

/-- `totalScore` is never negative. -/
theorem totalScore_nonneg (query : String) (e : TocEntry) :
    0 ≤ totalScore query e := by
  simp only [totalScore]
  split
  · rename_i h
    exact add_nonneg h.le (lengthBonus_nonneg _)
  · exact le_refl 0

/-- `totalScore` is positive exactly when the word-match score is. -/
theorem totalScore_pos_iff (query : String) (e : TocEntry) :
    0 < totalScore query e
    ↔ 0 < scoreBase ((pyWords (query.data.map Char.toLower)).dedup)
        (e.title.data.map Char.toLower) := by
  simp only [totalScore]
  split
  · rename_i h
    exact iff_of_true (add_pos_of_pos_of_nonneg h (lengthBonus_nonneg _)) h
  · rename_i h
    exact iff_of_false (lt_irrefl 0) h

/-- Value of `totalScore` on a positively-scored entry. -/
theorem totalScore_eq_of_pos (query : String) (e : TocEntry)
    (h : 0 < scoreBase ((pyWords (query.data.map Char.toLower)).dedup)
      (e.title.data.map Char.toLower)) :
    totalScore query e
      = scoreBase ((pyWords (query.data.map Char.toLower)).dedup)
          (e.title.data.map Char.toLower) + lengthBonus e.title := by
  simp only [totalScore]
  rw [if_pos h]

/-- With no exact lower-cased title match in the index, the matcher loop
completes and accumulates exactly the positively-scored entries in TOC
order. -/
theorem scanScore_no_exact (query : String) :
    ∀ entries : List TocEntry,
      (∀ e ∈ entries, e.title.data.map Char.toLower ≠ query.data.map Char.toLower) →
      scanScore (query.data.map Char.toLower)
          ((pyWords (query.data.map Char.toLower)).dedup) entries
        = Sum.inr (scoredOf query entries) := by
  intro entries
  induction entries with
  | nil => intro _; rfl
  | cons e rest ih =>
    intro hne
    have he : ¬ (query.data.map Char.toLower = e.title.data.map Char.toLower) :=
      fun h => hne e (List.mem_cons_self e rest) h.symm
    simp only [scanScore]
    rw [if_neg he, ih fun z hz => hne z (List.mem_cons_of_mem _ hz)]
    simp only [scoredOf, List.filterMap_cons]
    by_cases hb : 0 < scoreBase ((pyWords (query.data.map Char.toLower)).dedup)
        (e.title.data.map Char.toLower)
    · rw [if_pos hb, if_pos ((totalScore_pos_iff query e).mpr hb),
        totalScore_eq_of_pos query e hb]
    · rw [if_neg hb, if_neg (fun hc => hb ((totalScore_pos_iff query e).mp hc))]

/-- Inserting never yields an empty list. -/
theorem insertDesc_ne_nil (x : ℚ × TocEntry) (l : List (ℚ × TocEntry)) :
    insertDesc x l ≠ [] := by
  cases l with
  | nil => simp [insertDesc]
  | cons y t =>
    simp only [insertDesc]
    split <;> simp

/-- Sorting an empty result only arises from an empty input. -/
theorem sortScored_nil_of (l : List (ℚ × TocEntry)) (h : sortScored l = []) :
    l = [] := by
  cases l with
  | nil => rfl
  | cons a t => exact absurd h (insertDesc_ne_nil a (sortScored t))

/-- Head of the stable descending sort: the first element of the input
attaining the maximal score (every earlier element scores strictly
less, every element scores at most as much). -/
theorem sortScored_head :
    ∀ (l : List (ℚ × TocEntry)) (x : ℚ × TocEntry) (t : List (ℚ × TocEntry)),
      sortScored l = x :: t →
      ∃ s1 s2, l = s1 ++ x :: s2 ∧ (∀ y ∈ s1, y.1 < x.1) ∧ (∀ y ∈ l, y.1 ≤ x.1) := by
  intro l
  induction l with
  | nil => intro x t h; exact absurd h (by simp [sortScored])
  | cons a l ih =>
    intro x t h
    simp only [sortScored] at h
    cases hl : sortScored l with
    | nil =>
      have hl0 : l = [] := sortScored_nil_of l hl
      subst hl0
      simp only [insertDesc] at h
      obtain ⟨rfl, rfl⟩ := List.cons.inj h
      exact ⟨[], [], rfl, by simp, by simp⟩
    | cons x' t' =>
      rw [hl] at h
      simp only [insertDesc] at h
      by_cases hc : x'.1 ≤ a.1
      · rw [if_pos hc] at h
        obtain ⟨rfl, rfl⟩ := List.cons.inj h
        obtain ⟨s1', s2', hdec, _, hle⟩ := ih x' t' hl
        refine ⟨[], l, rfl, by simp, ?_⟩
        intro y hy
        rcases List.mem_cons.mp hy with rfl | hy'
        · exact le_refl _
        · exact le_trans (hle y hy') hc
      · rw [if_neg hc] at h
        obtain ⟨rfl, rfl⟩ := List.cons.inj h
        obtain ⟨s1', s2', hdec, hlt, hle⟩ := ih x' t' hl
        have halt : a.1 < x'.1 := lt_of_not_ge hc
        refine ⟨a :: s1', s2', by rw [hdec, List.cons_append], ?_, ?_⟩
        · intro y hy
          rcases List.mem_cons.mp hy with rfl | hy'
          · exact halt
          · exact hlt y hy'
        · intro y hy
          rcases List.mem_cons.mp hy with rfl | hy'
          · exact halt.le
          · exact hle y hy'

/-- A whitespace character is not a digit. -/
theorem ws_not_digit {c : Char} (h : c.isWhitespace = true) : c.isDigit = false := by
  have h2 : ((c = ' ' ∨ c = '\t') ∨ c = '\r') ∨ c = '\n' := by
    simpa [Char.isWhitespace, Bool.or_eq_true] using h
  rcases h2 with ((rfl | rfl) | rfl) | rfl <;> decide

/-- A whitespace character is not a dot. -/
theorem ws_not_dot {c : Char} (h : c.isWhitespace = true) : ¬ (c = '.') := by
  intro hc
  subst hc
  simp at h

/-- A digit is not a dot. -/
theorem digit_not_dot {c : Char} (h : c.isDigit = true) : ¬ (c = '.') := by
  intro hc
  subst hc
  simp at h

/-- `afterDigit` consumes a digit and continues. -/
theorem afterDigit_cons_digit (c : Char) (t : List Char) (h : c.isDigit = true) :
    afterDigit (c :: t) = (c :: (afterDigit t).1, (afterDigit t).2) := by
  conv_lhs => rw [afterDigit.eq_def]
  dsimp only
  rw [if_pos h]

/-- `afterDigit` passes over a digit run. -/
theorem afterDigit_digits (ds rest : List Char) (h : ∀ c ∈ ds, c.isDigit = true) :
    afterDigit (ds ++ rest) = (ds ++ (afterDigit rest).1, (afterDigit rest).2) := by
  induction ds with
  | nil => simp
  | cons c ds' ih =>
    rw [List.cons_append, afterDigit_cons_digit c _ (h c (List.mem_cons_self c ds')),
      ih fun z hz => h z (List.mem_cons_of_mem _ hz)]
    rfl

/-- `afterDigit` consumes a dot followed by a digit and continues. -/
theorem afterDigit_dot_digit (d : Char) (rest : List Char) (hd : d.isDigit = true) :
    afterDigit ('.' :: d :: rest) = ('.' :: d :: (afterDigit rest).1, (afterDigit rest).2) := by
  conv_lhs => rw [afterDigit.eq_def]
  dsimp only
  rw [if_neg (by decide : ¬ (('.' : Char).isDigit = true)), if_pos rfl, if_pos hd]

/-- `afterDigit` stops at a whitespace character. -/
theorem afterDigit_stop (w : Char) (rest : List Char) (hw : w.isWhitespace = true) :
    afterDigit (w :: rest) = ([], w :: rest) := by
  conv_lhs => rw [afterDigit.eq_def]
  dsimp only
  rw [ws_not_digit hw]
  simp [ws_not_dot hw]

/-- `afterDigit` takes a trailing dot before a whitespace character. -/
theorem afterDigit_dot_stop (w : Char) (rest : List Char) (hw : w.isWhitespace = true) :
    afterDigit ('.' :: w :: rest) = (['.'], w :: rest) := by
  conv_lhs => rw [afterDigit.eq_def]
  dsimp only
  rw [if_neg (by decide : ¬ (('.' : Char).isDigit = true)), if_pos rfl,
    if_neg (by simp [ws_not_digit hw])]

/-- `afterDigit` passes over the dotted digit-group tail. -/
theorem afterDigit_dotTail (gs : List (List Char)) (z : List Char)
    (hg : ∀ g ∈ gs, g ≠ [] ∧ ∀ c ∈ g, c.isDigit = true) :
    afterDigit (dotTail gs ++ z) = (dotTail gs ++ (afterDigit z).1, (afterDigit z).2) := by
  induction gs with
  | nil => simp [dotTail]
  | cons g gs' ih =>
    obtain ⟨hne, hdig⟩ := hg g (List.mem_cons_self g gs')
    cases g with
    | nil => exact absurd rfl hne
    | cons d g'' =>
      have hd : d.isDigit = true := hdig d (List.mem_cons_self d g'')
      have hrest : afterDigit (g'' ++ (dotTail gs' ++ z))
          = (g'' ++ (dotTail gs' ++ (afterDigit z).1), (afterDigit z).2) := by
        rw [afterDigit_digits g'' _ fun c hc => hdig c (List.mem_cons_of_mem _ hc),
          ih fun g2 hg2 => hg g2 (List.mem_cons_of_mem _ hg2)]
      have h1 : dotTail ((d :: g'') :: gs') ++ z
          = '.' :: d :: (g'' ++ (dotTail gs' ++ z)) := by
        simp [dotTail, List.append_assoc]
      have h2 : dotTail ((d :: g'') :: gs') ++ (afterDigit z).1
          = '.' :: d :: (g'' ++ (dotTail gs' ++ (afterDigit z).1)) := by
        simp [dotTail, List.append_assoc]
      rw [h1, afterDigit_dot_digit d _ hd, hrest, h2]

/-- Backtracking succeeds immediately when `(.+)$` matches and at least
one whitespace character was consumed. -/
theorem wsBack_of_tailCapture (l r g2 : List Char) (hl : l ≠ [])
    (h : tailCapture r = some g2) : wsBack l r = some g2 := by
  cases l with
  | nil => exact absurd rfl hl
  | cons a l' => simp [wsBack, h]

/-- `(.+)$` captures a non-empty newline-free remainder whole. -/
theorem tailCapture_clean (r : List Char) (hne : r ≠ [])
    (hnl : ∀ c ∈ r, ¬ (c = '\n')) : tailCapture r = some r := by
  have hself : r.takeWhile (fun c => c ≠ '\n') = r :=
    List.takeWhile_eq_self_iff.mpr (by intro x hx; simpa using hnl x hx)
  simp only [tailCapture, hself, List.drop_length]
  cases r with
  | nil => exact absurd rfl hne
  | cons a t => simp

/-- `\s+(.+)$` splits a whitespace run followed by a non-empty
newline-free remainder as expected. -/
theorem wsRest_decomp (ws rt : List Char) (rc : Char)
    (hws : ∀ c ∈ ws, c.isWhitespace = true) (hwsne : ws ≠ [])
    (hrc : rc.isWhitespace = false) (hnl : ∀ c ∈ rc :: rt, ¬ (c = '\n')) :
    wsRest (ws ++ rc :: rt) = some (rc :: rt) := by
  have htw : (ws ++ rc :: rt).takeWhile Char.isWhitespace = ws := by
    rw [List.takeWhile_append_of_pos hws]
    simp [List.takeWhile_cons, hrc]
  have hdrop : (ws ++ rc :: rt).drop ws.length = rc :: rt := List.drop_left ws _
  have hemp : ws.isEmpty = false := by
    cases ws with
    | nil => exact absurd rfl hwsne
    | cons w ws' => rfl
  simp only [wsRest, htw, hdrop, hemp, Bool.false_eq_true, if_false]
  exact wsBack_of_tailCapture _ _ _ (by simp [hwsne])
    (tailCapture_clean _ (by simp) hnl)

/-- The spelled-out dotted-number label ends in a digit. -/
theorem numCore_last : ∀ (gs : List (List Char)) (g0 : List Char),
    (∀ g ∈ g0 :: gs, g ≠ [] ∧ ∀ c ∈ g, c.isDigit = true) →
    ∃ pre a, numCore (g0 :: gs) = pre ++ [a] ∧ a.isDigit = true := by
  intro gs
  induction gs with
  | nil =>
    intro g0 hg
    obtain ⟨hne, hdig⟩ := hg g0 (List.mem_cons_self _ _)
    refine ⟨g0.dropLast, g0.getLast hne, ?_, hdig _ (List.getLast_mem hne)⟩
    have : numCore [g0] = g0 := by simp [numCore, dotTail]
    rw [this, List.dropLast_append_getLast hne]
  | cons g1 gs' ih =>
    intro g0 hg
    obtain ⟨pre, a, hna, ha⟩ := ih g1 fun g hgm => hg g (List.mem_cons_of_mem _ hgm)
    refine ⟨g0 ++ '.' :: pre, a, ?_, ha⟩
    have hstep : numCore (g0 :: g1 :: gs') = g0 ++ '.' :: numCore (g1 :: gs') := by
      simp [numCore, dotTail]
    rw [hstep, hna]
    simp

/-- Stripping trailing dots removes a final dot. -/
theorem rstripDots_append_dot (l : List Char) :
    rstripDots (l ++ ['.']) = rstripDots l := by
  simp [rstripDots, List.reverse_append, List.dropWhile_cons]

/-- Stripping trailing dots is the identity on a list ending in a
non-dot. -/
theorem rstripDots_last_not_dot (pre : List Char) (a : Char) (ha : ¬ (a = '.')) :
    rstripDots (pre ++ [a]) = pre ++ [a] := by
  simp [rstripDots, List.reverse_append, List.dropWhile_cons, ha]

/-- `sectionMatch` on a leading digit delegates to `afterDigit` and
`wsRest`. -/
theorem sectionMatch_cons_digit (c : Char) (t : List Char) (h : c.isDigit = true) :
    sectionMatch (c :: t)
      = match wsRest (afterDigit t).2 with
        | some g2 => some (c :: (afterDigit t).1, g2)
        | none => none := by
  conv_lhs => rw [sectionMatch.eq_def]
  dsimp only
  rw [if_pos h]

/-- `sectionMatch` fails on a text not starting with a digit. -/
theorem sectionMatch_not_digit (c : Char) (t : List Char) (h : c.isDigit = false) :
    sectionMatch (c :: t) = none := by
  conv_lhs => rw [sectionMatch.eq_def]
  dsimp only
  rw [h]
  rfl

/-- Full run of the split on a well-formed dotted-number label followed
by whitespace and a clean remainder, for a given optional trailing-dot
segment already processed by `afterDigit`. -/
theorem splitSectionTitle_label (c0 : Char) (g0' : List Char) (gs : List (List Char))
    (optTd ws rt : List Char) (rc : Char)
    (hg0dig : ∀ c ∈ c0 :: g0', c.isDigit = true)
    (hgs : ∀ g ∈ gs, g ≠ [] ∧ ∀ c ∈ g, c.isDigit = true)
    (hB : afterDigit (optTd ++ (ws ++ rc :: rt)) = (optTd, ws ++ rc :: rt))
    (hws : ∀ c ∈ ws, c.isWhitespace = true) (hwsne : ws ≠ [])
    (hrc : rc.isWhitespace = false) (hnl : ∀ c ∈ rc :: rt, ¬ (c = '\n')) :
    splitSectionTitle ⟨numCore ((c0 :: g0') :: gs) ++ (optTd ++ (ws ++ rc :: rt))⟩
      = (⟨rstripDots (numCore ((c0 :: g0') :: gs) ++ optTd)⟩, ⟨rc :: rt⟩) := by
  have hc0 : c0.isDigit = true := hg0dig c0 (List.mem_cons_self _ _)
  have hL : numCore ((c0 :: g0') :: gs) ++ (optTd ++ (ws ++ rc :: rt))
      = c0 :: (g0' ++ (dotTail gs ++ (optTd ++ (ws ++ rc :: rt)))) := by
    simp [numCore, List.append_assoc]
  have hAt : afterDigit (g0' ++ (dotTail gs ++ (optTd ++ (ws ++ rc :: rt))))
      = (g0' ++ (dotTail gs ++ optTd), ws ++ rc :: rt) := by
    rw [afterDigit_digits g0' _ fun c hc => hg0dig c (List.mem_cons_of_mem _ hc),
      afterDigit_dotTail gs _ hgs, hB]
  have hsm : sectionMatch (c0 :: (g0' ++ (dotTail gs ++ (optTd ++ (ws ++ rc :: rt)))))
      = some (c0 :: (g0' ++ (dotTail gs ++ optTd)), rc :: rt) := by
    rw [sectionMatch_cons_digit c0 _ hc0, hAt]
    rw [wsRest_decomp ws rt rc hws hwsne hrc hnl]
  have hg1 : c0 :: (g0' ++ (dotTail gs ++ optTd))
      = numCore ((c0 :: g0') :: gs) ++ optTd := by
    simp [numCore, List.append_assoc]
  show splitSectionTitle ⟨numCore ((c0 :: g0') :: gs) ++ (optTd ++ (ws ++ rc :: rt))⟩ = _
  rw [show (⟨numCore ((c0 :: g0') :: gs) ++ (optTd ++ (ws ++ rc :: rt))⟩ : String)
      = ⟨c0 :: (g0' ++ (dotTail gs ++ (optTd ++ (ws ++ rc :: rt))))⟩ from congrArg String.mk hL]
  simp only [splitSectionTitle, hsm, hg1]

/-! ### Claim theorems -/

/-- C8: `establishSession` is idempotent: once a call has returned true,
any later call returns true with no further navigation (so a successful
first call from a fresh state and the following call perform exactly one
landing navigation between them), and a failed first call returns false
(not an exception) leaving the state unchanged after one attempted
navigation. -/
theorem C8_establish_idempotent (env : Env) :
    (∀ s : FetcherState, s.session_established = true →
      establish_session env s = (true, s, 0))
    ∧ (∀ s : FetcherState, s.session_established = false →
      ((establish_session env s).1 = true →
        establish_session env (establish_session env s).2.1
            = (true, (establish_session env s).2.1, 0)
          ∧ (establish_session env s).2.2 = 1)
      ∧ ((establish_session env s).1 = false →
        (establish_session env s).2.1 = s ∧ (establish_session env s).2.2 = 1)) := by
  constructor
  · intro s hs
    simp [establish_session, hs]
  · intro s hs
    by_cases hl : env.landingOk <;> simp [establish_session, hs, hl]

/-- C10: every `DocContent` produced by `fetch_by_key`, `fetch_by_url` or
`fetch_by_search` has a breadcrumb equal to the one-element list holding
its own title. -/
theorem C10_breadcrumb_singleton (env : Env) (s : FetcherState)
    (key p version query guide : String) :
    (∀ d, (fetch_by_key env s key).1 = some d → d.breadcrumb = [d.title])
    ∧ (∀ d, (fetch_by_url env s p).1 = some d → d.breadcrumb = [d.title])
    ∧ (∀ d, (fetch_by_search env s version query guide).1 = some d →
        d.breadcrumb = [d.title]) := by
  have hurl : ∀ (s' : FetcherState) (p' : String) (d : DocContent),
      (fetch_by_url env s' p').1 = some d → d.breadcrumb = [d.title] := by
    intro s' p' d hd
    simp only [fetch_by_url] at hd
    split at hd
    · exact Option.noConfusion hd
    split at hd
    · exact Option.noConfusion hd
    split at hd
    · exact Option.noConfusion hd
    split at hd
    · exact Option.noConfusion hd
    · injection hd with h
      subst h
      rfl
  refine ⟨?_, fun d => hurl s p d, ?_⟩
  · intro d hd
    simp only [fetch_by_key] at hd
    split at hd
    · exact Option.noConfusion hd
    split at hd
    · exact Option.noConfusion hd
    split at hd
    · exact Option.noConfusion hd
    split at hd
    · exact Option.noConfusion hd
    split at hd
    · exact Option.noConfusion hd
    · injection hd with h
      subst h
      rfl
  · intro d hd
    simp only [fetch_by_search] at hd
    split at hd
    · exact Option.noConfusion hd
    · exact hurl _ _ _ hd

/-- C6: when a path-based navigation yields a body whose lower-cased text
contains "page cannot be found", or a resolved URL containing the
"PageNotfound" route fragment, `fetch_by_url` returns null, and so does
`fetch_by_key` for any key mapping to that path, regardless of the rest
of the body. -/
theorem C6_not_found_null (env : Env) (s : FetcherState) (doc_path : String)
    (res : NavResult)
    (hnav : env.nav (securedBase ++ doc_path) = some res)
    (hbad : pyIn "page cannot be found" (pyLower res.body) = true
      ∨ pyIn "PageNotfound" res.url = true) :
    (fetch_by_url env s doc_path).1 = none
    ∧ (∀ key, lookupStr THEORY_URLS key = some doc_path →
        (fetch_by_key env s key).1 = none) := by
  have hb : (pyIn "page cannot be found" (pyLower res.body)
      || pyIn "PageNotfound" res.url) = true := by
    rcases hbad with h | h <;> simp [h]
  constructor
  · simp only [fetch_by_url]
    split
    · rfl
    split
    · rfl
    split
    · rfl
    · rename_i res' heq
      rw [hnav] at heq
      injection heq with h
      subst h
      rw [hb]
      rfl
  · intro key hkey
    simp only [fetch_by_key, hkey]
    split
    · rfl
    split
    · rfl
    split
    · rfl
    · rename_i res' heq
      rw [hnav] at heq
      injection heq with h
      subst h
      rw [hb]
      rfl

/-- C9: a key missing from the static URL table makes `fetch_by_key`
return null with no navigation at all; for a key in the table, any
successfully returned `DocContent` carries the display name from the
static name table as its title. -/
theorem C9_key_lookup (env : Env) (s : FetcherState) (key : String) :
    (lookupStr THEORY_URLS key = none → fetch_by_key env s key = (none, s, 0))
    ∧ (∀ p d, lookupStr THEORY_URLS key = some p →
        (fetch_by_key env s key).1 = some d →
        lookupStr SECTION_NAMES key = some d.title) := by
  constructor
  · intro hmiss
    simp [fetch_by_key, hmiss]
  · intro p d hp hd
    have hmem := lookupStr_mem hp
    have hname := theory_names_exist (key, p) hmem
    obtain ⟨name, hname⟩ := Option.isSome_iff_exists.mp hname
    simp only [fetch_by_key, hp] at hd
    split at hd
    · exact Option.noConfusion hd
    split at hd
    · exact Option.noConfusion hd
    split at hd
    · exact Option.noConfusion hd
    split at hd
    · exact Option.noConfusion hd
    · injection hd with h
      subst h
      simp [hname, Option.getD]

/-- C2: for a recognized guide not yet in the in-process cache whose
durable cache file deserializes to a non-empty record list,
`build_toc_index` returns exactly the entries parsed from that file in
file order, performs zero navigations (no session establishment, no
frame navigation), and stores the result in the in-process cache. -/
theorem C2_cached_toc_no_network (env : Env) (s : FetcherState)
    (version guide gpath : String) (links : List LinkRec)
    (hguide : lookupStr GUIDE_TOCS guide = some gpath)
    (hmem : lookupStr s.toc_cache guide = none)
    (hfile : env.cacheFile guide version = some links)
    (hne : links ≠ []) :
    build_toc_index env s version guide
      = (links.map mkTocEntry,
         { s with toc_cache := (guide, links.map mkTocEntry) :: s.toc_cache }, 0)
    ∧ lookupStr (build_toc_index env s version guide).2.1.toc_cache guide
      = some (links.map mkTocEntry) := by
  have hload : load_cached_toc env guide version = links.map mkTocEntry := by
    simp [load_cached_toc, hfile]
  have hne' : (links.map mkTocEntry).isEmpty = false := by
    cases links with
    | nil => exact absurd rfl hne
    | cons a t => simp [List.isEmpty]
  have hmain : build_toc_index env s version guide
      = (links.map mkTocEntry,
         { s with toc_cache := (guide, links.map mkTocEntry) :: s.toc_cache }, 0) := by
    simp [build_toc_index, hguide, hmem, hload, hne']
  refine ⟨hmain, ?_⟩
  rw [hmain]
  simp [lookupStr]

/-- Shape of a successful `fetch_by_url` result: heuristic title from the
path, the frame's resolved URL, the trimmed body, and a singleton
breadcrumb. -/
theorem fetch_by_url_success (env : Env) (s : FetcherState) (doc_path : String)
    (res : NavResult) (d : DocContent)
    (hnav : env.nav (securedBase ++ doc_path) = some res)
    (hd : (fetch_by_url env s doc_path).1 = some d) :
    d = ⟨pathTitle doc_path, res.url, trimContent res.body, [pathTitle doc_path]⟩ := by
  simp only [fetch_by_url] at hd
  split at hd
  · exact Option.noConfusion hd
  split at hd
  · exact Option.noConfusion hd
  split at hd
  · exact Option.noConfusion hd
  · rename_i res' heq
    rw [hnav] at heq
    injection heq with h
    subst h
    split at hd
    · exact Option.noConfusion hd
    · injection hd with h
      exact h.symm

/-- C7: when a successful path-based fetch extracted a body containing
the "PRINT PAGE" marker, the returned content is the text strictly after
the first occurrence of the marker with surrounding whitespace trimmed;
a body without the marker is returned unchanged. -/
theorem C7_print_marker_trim (env : Env) (s : FetcherState) (doc_path : String)
    (res : NavResult) (d : DocContent)
    (hnav : env.nav (securedBase ++ doc_path) = some res)
    (hd : (fetch_by_url env s doc_path).1 = some d) :
    (∀ pre post, res.body.data = pre ++ (printMarker ++ post) →
      (∀ i, i < pre.length → printMarker.isPrefixOf (res.body.data.drop i) = false) →
      d.content = pyStrip ⟨post⟩)
    ∧ (pyIn ⟨printMarker⟩ res.body = false → d.content = res.body) := by
  have hdval := fetch_by_url_success env s doc_path res d hnav hd
  subst hdval
  constructor
  · intro pre post hdecomp hfirst
    show trimContent res.body = pyStrip ⟨post⟩
    have hcontains : pyIn ⟨printMarker⟩ res.body = true := by
      show pyContains printMarker res.body.data = true
      rw [hdecomp]
      exact pyContains_decomp _ _ _
    rw [hdecomp] at hfirst
    simp only [trimContent, hcontains, if_true]
    rw [hdecomp, dropThroughFirst_decomp _ _ _ hfirst]
  · intro hno
    show trimContent res.body = res.body
    simp [trimContent, hno]

/-- C4: when the lower-cased query equals the lower-cased title of some
entry, `find_section` (as a function of the index) returns the first such
entry in index order, regardless of any scores of other entries. -/
theorem C4_exact_match_first (query : String) (s1 : List TocEntry) (e : TocEntry)
    (s2 : List TocEntry)
    (hexact : pyLower e.title = pyLower query)
    (hfirst : ∀ y ∈ s1, pyLower y.title ≠ pyLower query) :
    find_section_in query (s1 ++ e :: s2) = some e := by
  have he : e.title.data.map Char.toLower = query.data.map Char.toLower :=
    congrArg String.data hexact
  have hf : ∀ y ∈ s1, y.title.data.map Char.toLower ≠ query.data.map Char.toLower := by
    intro y hy hcontra
    exact hfirst y hy (congrArg String.mk hcontra)
  simp only [find_section_in]
  rw [scanScore_of_exact _ _ s1 e s2 hf he]

set_option maxHeartbeats 1000000 in
/-- C3: on an index with no exact lower-cased title match, the matcher
returns null exactly when every entry scores zero (in particular on an
empty index); otherwise it returns an entry of maximal score such that
every earlier entry scores strictly less (descending stable sort,
ties broken by original TOC order). -/
theorem C3_best_score_selection (query : String) (entries : List TocEntry)
    (hne : ∀ e ∈ entries, pyLower e.title ≠ pyLower query) :
    (find_section_in query entries = none ↔ ∀ e ∈ entries, totalScore query e = 0)
    ∧ (∀ e, find_section_in query entries = some e →
        ∃ s1 s2, entries = s1 ++ e :: s2 ∧ 0 < totalScore query e
          ∧ (∀ y ∈ s1, totalScore query y < totalScore query e)
          ∧ (∀ y ∈ entries, totalScore query y ≤ totalScore query e)) := by
  have hne' : ∀ e ∈ entries, e.title.data.map Char.toLower ≠ query.data.map Char.toLower :=
    fun e he hc => hne e he (congrArg String.mk hc)
  have hscan := scanScore_no_exact query entries hne'
  have hfs : find_section_in query entries
      = (if (scoredOf query entries).isEmpty then none
         else ((sortScored (scoredOf query entries)).head?).map (fun x => x.2)) := by
    simp only [find_section_in]
    rw [hscan]
  constructor
  · rw [hfs]
    constructor
    · intro h
      by_cases hemp : (scoredOf query entries).isEmpty
      · intro e he
        have hnone : (if 0 < totalScore query e
            then some (totalScore query e, e) else none) = none :=
          List.filterMap_eq_nil_iff.mp (List.isEmpty_iff.mp hemp) e he
        by_cases hp : 0 < totalScore query e
        · rw [if_pos hp] at hnone
          exact Option.noConfusion hnone
        · exact le_antisymm (not_lt.mp hp) (totalScore_nonneg query e)
      · exfalso
        rw [if_neg hemp] at h
        cases hs : sortScored (scoredOf query entries) with
        | nil => exact hemp (List.isEmpty_iff.mpr (sortScored_nil_of _ hs))
        | cons x t =>
          rw [hs] at h
          simp at h
    · intro hall
      have hempty : scoredOf query entries = [] := by
        refine List.filterMap_eq_nil_iff.mpr fun e he => ?_
        rw [if_neg]
        rw [hall e he]
        exact lt_irrefl 0
      rw [hempty]
      simp
  · intro e hres
    rw [hfs] at hres
    by_cases hemp : (scoredOf query entries).isEmpty
    · rw [if_pos hemp] at hres
      exact Option.noConfusion hres
    · rw [if_neg hemp] at hres
      cases hs : sortScored (scoredOf query entries) with
      | nil => exact absurd (List.isEmpty_iff.mpr (sortScored_nil_of _ hs)) hemp
      | cons x t =>
        rw [hs] at hres
        simp only [List.head?_cons, Option.map_some] at hres
        injection hres with hres
        obtain ⟨t1, t2, hdec, hlt, hle⟩ := sortScored_head _ x t hs
        simp only [scoredOf] at hdec
        obtain ⟨u, v, huv, hu, hv⟩ := List.filterMap_eq_append_iff.mp hdec
        obtain ⟨v1, a, v2, hvdec, hv1, ha, hv2⟩ := List.filterMap_eq_cons_iff.mp hv
        have hapos : 0 < totalScore query a := by
          by_contra hneg
          rw [if_neg hneg] at ha
          exact Option.noConfusion ha
        rw [if_pos hapos] at ha
        injection ha with ha
        subst ha
        subst hres
        have hdecomp : entries = (u ++ v1) ++ a :: v2 := by
          rw [huv, hvdec, List.append_assoc]
        refine ⟨u ++ v1, v2, hdecomp, hapos, ?_, ?_⟩
        · intro y hy
          rcases List.mem_append.mp hy with hyu | hyv1
          · by_cases hyp : 0 < totalScore query y
            · have hmem : (totalScore query y, y) ∈ t1 := by
                rw [← hu]
                exact List.mem_filterMap.mpr ⟨y, hyu, by rw [if_pos hyp]⟩
              exact hlt _ hmem
            · have hy0 : totalScore query y = 0 :=
                le_antisymm (not_lt.mp hyp) (totalScore_nonneg query y)
              rw [hy0]
              exact hapos
          · have hy0 : totalScore query y = 0 := by
              have := hv1 y hyv1
              by_cases hyp : 0 < totalScore query y
              · rw [if_pos hyp] at this
                exact absurd this (Option.noConfusion ·)
              · exact le_antisymm (not_lt.mp hyp) (totalScore_nonneg query y)
            rw [hy0]
            exact hapos
        · intro y hy
          by_cases hyp : 0 < totalScore query y
          · have hmem : (totalScore query y, y) ∈ scoredOf query entries :=
              List.mem_filterMap.mpr ⟨y, hy, by rw [if_pos hyp]⟩
            exact hle _ hmem
          · exact le_trans (not_lt.mp hyp) hapos.le

/-- C5: the numeric-prefix split used when building a TOC index maps a
text consisting of a dotted-number label (with an optional trailing dot)
followed by whitespace and a non-empty newline-free remainder to the
label without the trailing dot as section number and the remainder as
title, and a text not starting with a digit to an empty section number
with the whole text as title; in particular "4.4.3. SST k-ω Model"
yields ("4.4.3", "SST k-ω Model") and "Overview" yields
("", "Overview"). -/
theorem C5_numeric_split :
    (∀ (g0 : List Char) (gs : List (List Char)) (td : Bool) (ws rt : List Char)
      (rc : Char),
      (∀ g ∈ g0 :: gs, g ≠ [] ∧ ∀ c ∈ g, c.isDigit = true) →
      ws ≠ [] → (∀ c ∈ ws, c.isWhitespace = true) →
      rc.isWhitespace = false → (∀ c ∈ rc :: rt, ¬ (c = '\n')) →
      splitSectionTitle
          ⟨numCore (g0 :: gs) ++ ((if td then ['.'] else []) ++ (ws ++ rc :: rt))⟩
        = (⟨numCore (g0 :: gs)⟩, ⟨rc :: rt⟩))
    ∧ (∀ text : String, (∀ c, text.data.head? = some c → c.isDigit = false) →
        splitSectionTitle text = ("", text))
    ∧ splitSectionTitle "4.4.3. SST k-ω Model" = ("4.4.3", "SST k-ω Model")
    ∧ splitSectionTitle "Overview" = ("", "Overview") := by
  refine ⟨?_, ?_, by decide, by decide⟩
  · intro g0 gs td ws rt rc hg hwsne hws hrc hnl
    obtain ⟨hg0ne, hg0dig⟩ := hg g0 (List.mem_cons_self _ _)
    cases g0 with
    | nil => exact absurd rfl hg0ne
    | cons c0 g0' =>
      cases ws with
      | nil => exact absurd rfl hwsne
      | cons w ws' =>
        have hw : w.isWhitespace = true := hws w (List.mem_cons_self _ _)
        have hgs : ∀ g ∈ gs, g ≠ [] ∧ ∀ c ∈ g, c.isDigit = true :=
          fun g hgm => hg g (List.mem_cons_of_mem _ hgm)
        have hB : afterDigit ((if td then ['.'] else []) ++ ((w :: ws') ++ rc :: rt))
            = ((if td then ['.'] else []), (w :: ws') ++ rc :: rt) := by
          cases td with
          | true =>
            show afterDigit (['.'] ++ ((w :: ws') ++ rc :: rt))
              = (['.'], (w :: ws') ++ rc :: rt)
            rw [List.singleton_append, List.cons_append]
            exact afterDigit_dot_stop w _ hw
          | false =>
            show afterDigit ([] ++ ((w :: ws') ++ rc :: rt))
              = ([], (w :: ws') ++ rc :: rt)
            rw [List.nil_append, List.cons_append]
            exact afterDigit_stop w _ hw
        have hmain := splitSectionTitle_label c0 g0' gs (if td then ['.'] else [])
          (w :: ws') rt rc hg0dig hgs hB hws hwsne hrc hnl
        rw [hmain]
        obtain ⟨pre, a, hcore, hadig⟩ := numCore_last gs (c0 :: g0') hg
        have hstrip : rstripDots (numCore ((c0 :: g0') :: gs) ++ (if td then ['.'] else []))
            = numCore ((c0 :: g0') :: gs) := by
          cases td with
          | true =>
            show rstripDots (numCore ((c0 :: g0') :: gs) ++ ['.'])
              = numCore ((c0 :: g0') :: gs)
            rw [rstripDots_append_dot, hcore,
              rstripDots_last_not_dot _ _ (digit_not_dot hadig)]
          | false =>
            show rstripDots (numCore ((c0 :: g0') :: gs) ++ [])
              = numCore ((c0 :: g0') :: gs)
            rw [List.append_nil, hcore,
              rstripDots_last_not_dot _ _ (digit_not_dot hadig)]
        rw [hstrip]
  · intro text hneg
    obtain ⟨l⟩ := text
    cases l with
    | nil => rfl
    | cons c t =>
      have hc : c.isDigit = false := hneg c rfl
      show splitSectionTitle ⟨c :: t⟩ = ("", ⟨c :: t⟩)
      simp [splitSectionTitle, sectionMatch_not_digit c t hc]

/-- Any successful `fetch_by_url` carries the heuristic path-derived
title. -/
theorem fetch_by_url_title (env : Env) (s : FetcherState) (doc_path : String)
    (d : DocContent) (hd : (fetch_by_url env s doc_path).1 = some d) :
    d.title = pathTitle doc_path := by
  simp only [fetch_by_url] at hd
  split at hd
  · exact Option.noConfusion hd
  split at hd
  · exact Option.noConfusion hd
  split at hd
  · exact Option.noConfusion hd
  split at hd
  · exact Option.noConfusion hd
  · injection hd with h
    subst h
    rfl

/-- C1 (amended): a successful `fetch_by_search` result carries the
heuristic title derived from the path recovered from the matched TOC
entry's URL — `fetch_by_url`'s title — not the TOC entry's title. -/
theorem C1_title_is_path_heuristic (env : Env) (s : FetcherState)
    (version query guide : String) (d : DocContent)
    (hd : (fetch_by_search env s version query guide).1 = some d) :
    ∃ entry, (find_section env s version query guide).1 = some entry
      ∧ d.title = pathTitle (stripSecured entry.url) := by
  simp only [fetch_by_search] at hd
  split at hd
  · exact Option.noConfusion hd
  · rename_i x entry s1 n1 heq
    refine ⟨entry, by rw [heq], ?_⟩
    exact fetch_by_url_title env s1 (stripSecured entry.url) d hd

/-- C1 (counterexample): in `envC1` the free-text query "SST k-ω Model"
matches the TOC entry titled "SST k-ω Model", navigation succeeds, yet
the returned title is the path-derived heuristic
"Flu Th Sec Turb Kw Sst", not the entry's title. -/
theorem C1_cex :
    ((find_section envC1 initState "v252" "SST k-ω Model" "theory").1).map TocEntry.title
      = some "SST k-ω Model"
    ∧ ((fetch_by_search envC1 initState "v252" "SST k-ω Model" "theory").1).map DocContent.title
      = some "Flu Th Sec Turb Kw Sst"
    ∧ ¬ (((fetch_by_search envC1 initState "v252" "SST k-ω Model" "theory").1).map DocContent.title
      = some "SST k-ω Model") := by
  refine ⟨by decide, by decide, by decide⟩

/-! ### Witnesses -/

/-- Witness for C1 (amended) at the concrete `envC1` run. -/
theorem C1_title_is_path_heuristic_witness :
    (fetch_by_search envC1 initState "v252" "SST k-ω Model" "theory").1 = some dC1
    ∧ ∃ entry, (find_section envC1 initState "v252" "SST k-ω Model" "theory").1 = some entry
        ∧ dC1.title = pathTitle (stripSecured entry.url) :=
  ⟨by decide,
    C1_title_is_path_heuristic envC1 initState "v252" "SST k-ω Model" "theory" dC1 (by decide)⟩

/-- Witness for C2 on the populated durable cache of `envC1`. -/
theorem C2_cached_toc_no_network_witness :
    lookupStr GUIDE_TOCS "theory" = some "flu_th/flu_th.html"
    ∧ lookupStr initState.toc_cache "theory" = none
    ∧ envC1.cacheFile "theory" "v252" = some [linkC1]
    ∧ [linkC1] ≠ []
    ∧ (build_toc_index envC1 initState "v252" "theory"
        = ([linkC1].map mkTocEntry,
           { initState with
              toc_cache := ("theory", [linkC1].map mkTocEntry) :: initState.toc_cache }, 0)
      ∧ lookupStr (build_toc_index envC1 initState "v252" "theory").2.1.toc_cache "theory"
        = some ([linkC1].map mkTocEntry)) :=
  ⟨by decide, rfl, rfl, by decide,
    C2_cached_toc_no_network envC1 initState "v252" "theory" "flu_th/flu_th.html" [linkC1]
      (by decide) rfl rfl (by decide)⟩

/-- Witness for C3 on the spec's scoring example index. -/
theorem C3_best_score_selection_witness :
    (∀ e ∈ esW, pyLower e.title ≠ pyLower "natural convection")
    ∧ ((find_section_in "natural convection" esW = none
        ↔ ∀ e ∈ esW, totalScore "natural convection" e = 0)
      ∧ (∀ e, find_section_in "natural convection" esW = some e →
          ∃ s1 s2, esW = s1 ++ e :: s2 ∧ 0 < totalScore "natural convection" e
            ∧ (∀ y ∈ s1, totalScore "natural convection" y < totalScore "natural convection" e)
            ∧ (∀ y ∈ esW, totalScore "natural convection" y ≤ totalScore "natural convection" e))) :=
  ⟨by decide, C3_best_score_selection "natural convection" esW (by decide)⟩

/-- Witness for C4 on the spec's exact-match example. -/
theorem C4_exact_match_first_witness :
    pyLower (⟨"SST k-ω Model", "v1", ""⟩ : TocEntry).title = pyLower "SST k-ω Model"
    ∧ (∀ y ∈ ([] : List TocEntry), pyLower y.title ≠ pyLower "SST k-ω Model")
    ∧ find_section_in "SST k-ω Model"
        ([] ++ (⟨"SST k-ω Model", "v1", ""⟩ : TocEntry) :: [⟨"k-ω Models Overview", "v2", ""⟩])
      = some ⟨"SST k-ω Model", "v1", ""⟩ :=
  ⟨rfl, by decide,
    C4_exact_match_first "SST k-ω Model" [] ⟨"SST k-ω Model", "v1", ""⟩
      [⟨"k-ω Models Overview", "v2", ""⟩] rfl (by decide)⟩

/-- Witness for C5 on the text "4.4.3. SST k-ω Model". -/
theorem C5_numeric_split_witness :
    (∀ g ∈ (['4'] :: [['4'], ['3']]), g ≠ [] ∧ ∀ c ∈ g, c.isDigit = true)
    ∧ ([' '] : List Char) ≠ []
    ∧ (∀ c ∈ ([' '] : List Char), c.isWhitespace = true)
    ∧ 'S'.isWhitespace = false
    ∧ (∀ c ∈ 'S' :: "ST k-ω Model".data, ¬ (c = '\n'))
    ∧ splitSectionTitle
        ⟨numCore (['4'] :: [['4'], ['3']])
          ++ ((if true then ['.'] else []) ++ ([' '] ++ 'S' :: "ST k-ω Model".data))⟩
      = (⟨numCore (['4'] :: [['4'], ['3']])⟩, ⟨'S' :: "ST k-ω Model".data⟩) :=
  ⟨by decide, by decide, by decide, by decide, by decide,
    C5_numeric_split.1 ['4'] [['4'], ['3']] true [' '] "ST k-ω Model".data 'S'
      (by decide) (by decide) (by decide) (by decide) (by decide)⟩

/-- Witness for C6 on a not-found body in `envBad`. -/
theorem C6_not_found_null_witness :
    envBad.nav (securedBase ++ "p.html") = some resBad
    ∧ pyIn "page cannot be found" (pyLower resBad.body) = true
    ∧ ((fetch_by_url envBad initState "p.html").1 = none
      ∧ (∀ key, lookupStr THEORY_URLS key = some "p.html" →
          (fetch_by_key envBad initState key).1 = none)) :=
  ⟨rfl, by decide,
    C6_not_found_null envBad initState "p.html" resBad rfl (Or.inl (by decide))⟩

/-- Witness for C7 on the marker-bearing body of `envW1`. -/
theorem C7_print_marker_trim_witness :
    envW1.nav (securedBase ++ "a.html") = some resW1
    ∧ (fetch_by_url envW1 initState "a.html").1 = some dW
    ∧ ((∀ pre post, resW1.body.data = pre ++ (printMarker ++ post) →
          (∀ i, i < pre.length → printMarker.isPrefixOf (resW1.body.data.drop i) = false) →
          dW.content = pyStrip ⟨post⟩)
      ∧ (pyIn ⟨printMarker⟩ resW1.body = false → dW.content = resW1.body)) :=
  ⟨rfl, by decide,
    C7_print_marker_trim envW1 initState "a.html" resW1 dW rfl (by decide)⟩

/-- Witness for C8: a fresh fetcher in `envW1` establishes once, and the
second call is a navigation-free no-op. -/
theorem C8_establish_idempotent_witness :
    initState.session_established = false
    ∧ (establish_session envW1 initState).1 = true
    ∧ (establish_session envW1 (establish_session envW1 initState).2.1
        = (true, (establish_session envW1 initState).2.1, 0)
      ∧ (establish_session envW1 initState).2.2 = 1) :=
  ⟨rfl, by decide,
    ((C8_establish_idempotent envW1).2 initState rfl).1 (by decide)⟩

/-- Witness for C9 on the key "k_omega_sst" in `envW1`. -/
theorem C9_key_lookup_witness :
    lookupStr THEORY_URLS "k_omega_sst"
      = some "corp/v252/en/flu_th/flu_th_sec_turb_kw_sst.html"
    ∧ (fetch_by_key envW1 initState "k_omega_sst").1 = some dW9
    ∧ lookupStr SECTION_NAMES "k_omega_sst" = some dW9.title :=
  ⟨by decide, by decide,
    (C9_key_lookup envW1 initState "k_omega_sst").2
      "corp/v252/en/flu_th/flu_th_sec_turb_kw_sst.html" dW9 (by decide) (by decide)⟩

/-- Witness for C10 on a successful `fetch_by_url` in `envW1`. -/
theorem C10_breadcrumb_singleton_witness :
    (fetch_by_url envW1 initState "a.html").1 = some dW
    ∧ dW.breadcrumb = [dW.title] :=
  ⟨by decide,
    (C10_breadcrumb_singleton envW1 initState "k" "a.html" "v" "q" "g").2.1 dW (by decide)⟩

end FluentDoc
